import Mathlib

/-!
Verification development for the TimeClock repository.

The definitions below are a shallow embedding of the persistence/cache core:
the punch state machine of `src/timeclock/cache/members.py`, and the
guild/role repository of `src/timeclock/cache/guilds.py` together with the
helpers in `src/timeclock/bot.py`.  Timestamps are Unix epoch seconds stored
as floats in the source; the punch engine only stores and copies them (it
never performs arithmetic or comparisons on them), so they are embedded as
integers.  Database rows are embedded as Lean structures, the in-memory
index (a Python dict keyed by integer id) as an insertion-ordered
association list, and the durable guild table as a list of eagerly loaded
Guild-with-Roles aggregates.
-/

namespace TimeClock

/-- One duty interval: row of the `time` table (`database/time.py`).
`punch_out = none` means the interval is still open. -/
structure Time where
  punch_in : Int
  punch_out : Option Int
deriving DecidableEq, Repr

/-- Row of the `member` table with its eagerly loaded `times` relationship
(`database/member.py`). -/
structure Member where
  id : Int
  guild_id : Int
  on_duty : Bool
  times : List Time
deriving DecidableEq, Repr

/-- The member row built by `add_punch_event` when no row exists yet:
`Member(id=member_id, guild_id=guild_id, on_duty=True,
times=[Time(punch_in=timestamp)])`. -/
def freshMember (guild_id member_id timestamp : Int) : Member :=
  { id := member_id, guild_id := guild_id, on_duty := true,
    times := [{ punch_in := timestamp, punch_out := none }] }

/-- Embeds `MemberCache.add_punch_event` (src/timeclock/cache/members.py,
lines 92-126); the transition logic coincides with
`add_member_punch_event` (src/timeclock/query.py, lines 187-239).
`fetched` is the member row selected inside the transaction (`none` when no
row exists).  The result is the member that is flushed, refreshed and
written to the cache; `none` models the `IndexError` raised by
`member.times[-1]` when `on_duty` is true but the times list is empty. -/
def add_punch_event (fetched : Option Member) (guild_id member_id : Int)
    (timestamp : Int) : Option Member :=
  match fetched with
  | none => some (freshMember guild_id member_id timestamp)
  | some member =>
      if member.on_duty = false then
        let t : Time := { punch_in := timestamp, punch_out := none }
        some { member with on_duty := true, times := member.times ++ [t] }
      else
        match member.times.getLast? with
        | none => none
        | some t =>
            let t2 : Time := { t with punch_out := some timestamp }
            some { member with on_duty := false, times := member.times.dropLast ++ [t2] }

/-- Embeds the mutation performed by `MemberCache.update_member`
(src/timeclock/cache/members.py, lines 67-90) on the member row it fetched:
`member.on_duty = member.on_duty if on_duty is None else on_duty`. -/
def update_member (member : Member) (on_duty : Option Bool) : Member :=
  { member with on_duty := match on_duty with | none => member.on_duty | some b => b }

/-- Threads a sequence of punch events through `add_punch_event`, re-fetching
the member committed by the previous call (sequential calls, one committed
transaction each).  The inner state is the member row (`none` before the
first event); the outer `none` means a call raised `IndexError`. -/
def punchSeq (guild_id member_id : Int) : Option Member → List Int → Option (Option Member)
  | st, [] => some st
  | st, ts :: rest =>
      match add_punch_event st guild_id member_id ts with
      | none => none
      | some m => punchSeq guild_id member_id (some m) rest

/-- Runs a punch-event sequence for a member with no prior state. -/
def run_punch_events (guild_id member_id : Int) (events : List Int) :
    Option (Option Member) :=
  punchSeq guild_id member_id none events

/-- True when every interval in the list is closed. -/
def allClosed (l : List Time) : Bool := l.all (fun t => t.punch_out.isSome)

/-- Number of open intervals of a member. -/
def openCount (m : Member) : Nat :=
  (m.times.filter (fun t => t.punch_out.isNone)).length

/-- Whether the last interval by insertion order exists and has no closing
timestamp. -/
def lastOpen (m : Member) : Bool :=
  m.times.getLast?.elim false (fun t => t.punch_out.isNone)

/-- The shape invariant maintained by the punch engine: on duty means the
times list is a closed history plus one trailing open interval, off duty
means every interval is closed. -/
def wellFormed (m : Member) : Prop :=
  (m.on_duty = true →
    ∃ init pin, m.times = init ++ [{ punch_in := pin, punch_out := none }] ∧
      allClosed init = true) ∧
  (m.on_duty = false → allClosed m.times = true)

lemma allClosed_append (l₁ l₂ : List Time) :
    allClosed (l₁ ++ l₂) = (allClosed l₁ && allClosed l₂) := by
  simp [allClosed, List.all_append]

lemma filter_open_of_allClosed (l : List Time) (h : allClosed l = true) :
    l.filter (fun t => t.punch_out.isNone) = [] := by
  induction l with
  | nil => rfl
  | cons t l ih =>
      simp only [allClosed, List.all_cons, Bool.and_eq_true] at h
      cases ho : t.punch_out with
      | none => rw [ho] at h; simp at h
      | some v =>
          simp only [List.filter_cons, ho, Option.isNone_some]
          exact ih h.2

lemma wellFormed_props (m : Member) (h : wellFormed m) :
    openCount m ≤ 1 ∧ (m.on_duty = true ↔ openCount m ≠ 0) ∧ m.on_duty = lastOpen m := by
  obtain ⟨hOn, hOff⟩ := h
  cases hd : m.on_duty with
  | false =>
      have hc := hOff hd
      have hfil := filter_open_of_allClosed _ hc
      have hcount : openCount m = 0 := by simp [openCount, hfil]
      refine ⟨by omega, by simp [hcount], ?_⟩
      rcases List.eq_nil_or_concat m.times with hnil | ⟨l2, a, hconcat⟩
      · simp [lastOpen, hnil]
      · rw [List.concat_eq_append] at hconcat
        rw [hconcat, allClosed_append] at hc
        have ha : a.punch_out.isSome = true := by
          simp [allClosed] at hc; exact hc.2
        simp [lastOpen, hconcat, List.getLast?_concat, Option.isNone_iff_eq_none]
        exact ha
  | true =>
      obtain ⟨init, pin, htimes, hclosed⟩ := hOn hd
      have hfil := filter_open_of_allClosed _ hclosed
      have hcount : openCount m = 1 := by
        simp [openCount, htimes, List.filter_append, hfil]
      refine ⟨by omega, by simp [hcount], ?_⟩
      simp [lastOpen, htimes, List.getLast?_concat]

lemma add_punch_event_preserves (m : Member) (gid mid ts : Int)
    (h : wellFormed m) :
    ∃ m2, add_punch_event (some m) gid mid ts = some m2 ∧ wellFormed m2 := by
  obtain ⟨hOn, hOff⟩ := h
  cases hd : m.on_duty with
  | false =>
      let t : Time := { punch_in := ts, punch_out := none }
      refine ⟨{ m with on_duty := true, times := m.times ++ [t] }, ?_, ?_⟩
      · simp [add_punch_event, hd]
      · constructor
        · intro _
          exact ⟨m.times, ts, rfl, hOff hd⟩
        · intro hcontra
          simp at hcontra
  | true =>
      obtain ⟨init, pin, htimes, hclosed⟩ := hOn hd
      have hlast : m.times.getLast? = some { punch_in := pin, punch_out := none } := by
        rw [htimes]; exact List.getLast?_concat _
      have hdrop : m.times.dropLast = init := by
        rw [htimes]; exact List.dropLast_concat
      let t2 : Time := { punch_in := pin, punch_out := some ts }
      refine ⟨{ m with on_duty := false, times := m.times.dropLast ++ [t2] }, ?_, ?_⟩
      · simp [add_punch_event, hd, hlast, t2]
      · constructor
        · intro hcontra
          simp at hcontra
        · intro _
          show allClosed (m.times.dropLast ++ [t2]) = true
          rw [hdrop, allClosed_append, hclosed]
          simp [allClosed, t2]

lemma punchSeq_wf (gid mid : Int) (events : List Int) :
    ∀ st : Option Member, (∀ m, st = some m → wellFormed m) →
      ∃ st2, punchSeq gid mid st events = some st2 ∧
        ∀ m, st2 = some m → wellFormed m := by
  induction events with
  | nil => intro st h; exact ⟨st, rfl, h⟩
  | cons ts rest ih =>
      intro st h
      cases st with
      | none =>
          have hstep : add_punch_event none gid mid ts = some (freshMember gid mid ts) := rfl
          have hwf : wellFormed (freshMember gid mid ts) := by
            constructor
            · intro _
              exact ⟨[], ts, rfl, rfl⟩
            · intro hcontra
              simp [freshMember] at hcontra
          obtain ⟨st2, hrun, h2⟩ := ih (some (freshMember gid mid ts))
            (fun x hx => by cases hx; exact hwf)
          refine ⟨st2, ?_, h2⟩
          rw [punchSeq, hstep]
          exact hrun
      | some m =>
          obtain ⟨m2, hstep, hwf2⟩ := add_punch_event_preserves m gid mid ts (h m rfl)
          obtain ⟨st2, hrun, h2⟩ := ih (some m2) (fun x hx => by cases hx; exact hwf2)
          refine ⟨st2, ?_, h2⟩
          rw [punchSeq, hstep]
          exact hrun

/-- C1: for every member and every sequence of punch events applied via
`add_punch_event` from no prior state, no call fails, at most one interval
of the resulting member is open, and `on_duty` holds exactly when an open
interval exists, equivalently exactly when the last interval by insertion
order has no closing timestamp. -/
theorem add_punch_event_single_open_invariant (gid mid : Int) (events : List Int) :
    ∃ st, run_punch_events gid mid events = some st ∧
      ∀ m, st = some m →
        openCount m ≤ 1 ∧ (m.on_duty = true ↔ openCount m ≠ 0) ∧
        m.on_duty = lastOpen m := by
  obtain ⟨st, hrun, hwf⟩ := punchSeq_wf gid mid events none (fun m hm => by cases hm)
  exact ⟨st, hrun, fun m hm => wellFormed_props m (hwf m hm)⟩

/-- C1 witness: the invariant theorem applied to a concrete two-event run. -/
theorem add_punch_event_single_open_invariant_witness :
    ∃ st, run_punch_events 1 1 [100, 160] = some st ∧
      ∀ m, st = some m →
        openCount m ≤ 1 ∧ (m.on_duty = true ↔ openCount m ≠ 0) ∧
        m.on_duty = lastOpen m :=
  add_punch_event_single_open_invariant 1 1 [100, 160]

/-- C2: member M1 in guild G1 with no prior state: a punch at t=100 leaves
the member on duty with a single open interval; a second punch at t=160
closes it; a third punch at t=200 appends a new open interval. -/
theorem punch_scenario_M1 :
    run_punch_events 1 1 [100] =
      some (some { id := 1, guild_id := 1, on_duty := true,
                   times := [{ punch_in := 100, punch_out := none }] }) ∧
    run_punch_events 1 1 [100, 160] =
      some (some { id := 1, guild_id := 1, on_duty := false,
                   times := [{ punch_in := 100, punch_out := some 160 }] }) ∧
    run_punch_events 1 1 [100, 160, 200] =
      some (some { id := 1, guild_id := 1, on_duty := true,
                   times := [{ punch_in := 100, punch_out := some 160 },
                             { punch_in := 200, punch_out := none }] }) := by
  refine ⟨by decide, by decide, by decide⟩

/-- C9: when `add_punch_event` finds an on-duty member it reads
`member.times[-1]`; the access succeeds whenever the times list is
non-empty, and the non-emptiness precondition is required: the state
`on_duty = true` with an empty times list, producible through the
`update_member` administrative override, makes the access raise instead of
recording a punch. -/
theorem add_punch_event_last_index_access (gid mid ts : Int) :
    (∀ m : Member, m.on_duty = true → m.times ≠ [] →
        (add_punch_event (some m) gid mid ts).isSome = true) ∧
    (update_member { id := 1, guild_id := 1, on_duty := false, times := [] } (some true) =
        { id := 1, guild_id := 1, on_duty := true, times := [] } ∧
      add_punch_event
        (some { id := 1, guild_id := 1, on_duty := true, times := [] }) gid mid ts = none) := by
  constructor
  · intro m hduty hne
    rcases List.eq_nil_or_concat m.times with hnil | ⟨l2, a, hconcat⟩
    · exact absurd hnil hne
    · rw [List.concat_eq_append] at hconcat
      have hlast : m.times.getLast? = some a := by
        rw [hconcat]; exact List.getLast?_concat _
      simp only [add_punch_event, hduty]
      rw [hlast]
      simp
  · exact ⟨rfl, rfl⟩

/-- C9 witness: the in-bounds half applied to a concrete on-duty member with
one open interval. -/
theorem add_punch_event_last_index_access_witness :
    (add_punch_event
      (some { id := 1, guild_id := 1, on_duty := true,
              times := [{ punch_in := 0, punch_out := none }] }) 1 1 5).isSome = true :=
  (add_punch_event_last_index_access 1 1 5).1
    { id := 1, guild_id := 1, on_duty := true,
      times := [{ punch_in := 0, punch_out := none }] } rfl (by decide)

/-- Row of the `role` table (`database/role.py`). -/
structure Role where
  id : Int
  guild_id : Int
  is_mod : Bool
  can_punch : Bool
deriving DecidableEq, Repr

/-- Row of the `guild` table with its eagerly loaded `roles` relationship
(`database/guild.py`).  `embed` is the serialized `_embed` TEXT column. -/
structure Guild where
  id : Int
  message_id : Option Int
  channel_id : Option Int
  embed : Option String
  roles : List Role
deriving DecidableEq, Repr

/-- The `MISSING` sentinel discipline of `cache/guilds.py`: an argument is
either left at the `MISSING` default or supplied (possibly with `None`,
hence the payload is itself often an `Option`). -/
inductive Tri (α : Type)
  | missing
  | supplied (a : α)
deriving DecidableEq, Repr

/-- The in-memory index `GuildCache._cache`: a Python dict from guild id to
the cached aggregate, embedded as an insertion-ordered association list. -/
abbrev GCache := List (Int × Guild)

/-- Python `dict.get`. -/
def dictGet (c : GCache) (k : Int) : Option Guild :=
  (c.find? (fun p => p.1 == k)).map Prod.snd

/-- Python `dict[k] = v`: replaces the value in place when the key exists,
appends otherwise (insertion order preserved). -/
def dictSet (c : GCache) (k : Int) (g : Guild) : GCache :=
  if c.any (fun p => p.1 == k) then
    c.map (fun p => if p.1 == k then (k, g) else p)
  else c ++ [(k, g)]

/-- `select(Guild).where(Guild.id == guild_id)` with eagerly loaded roles,
over the durable guild table. -/
def findGuild (store : List Guild) (gid : Int) : Option Guild :=
  store.find? (fun g => g.id == gid)

/-- Persisting the mutated aggregate: the fetched row is updated in place
(primary keys are unique, so at most one row matches). -/
def setGuild (store : List Guild) (g : Guild) : List Guild :=
  store.map (fun x => if x.id == g.id then g else x)

lemma find?_set_of_any (c : GCache) (k : Int) (g : Guild)
    (h : c.any (fun p => p.1 == k) = true) :
    (c.map (fun p => if p.1 == k then (k, g) else p)).find? (fun p => p.1 == k) =
      some (k, g) := by
  induction c with
  | nil => simp at h
  | cons p c ih =>
      by_cases hp : (p.1 == k) = true
      · simp only [List.map_cons, if_pos hp]
        exact List.find?_cons_of_pos _ (by simp)
      · simp only [List.any_cons, Bool.or_eq_true] at h
        rcases h with h | h
        · exact absurd h hp
        · simp only [List.map_cons, if_neg hp]
          rw [List.find?_cons_of_neg (p := fun (q : Int × Guild) => q.1 == k) _ hp]
          exact ih h

lemma find?_append_of_none (c : GCache) (k : Int) (g : Guild)
    (h : ¬ c.any (fun p => p.1 == k) = true) :
    (c ++ [(k, g)]).find? (fun p => p.1 == k) = some (k, g) := by
  induction c with
  | nil => exact List.find?_cons_of_pos _ (by simp)
  | cons p c ih =>
      simp only [List.any_cons, Bool.or_eq_true, not_or] at h
      rw [List.cons_append,
        List.find?_cons_of_neg (p := fun (q : Int × Guild) => q.1 == k) _ h.1]
      exact ih h.2

lemma dictGet_dictSet (c : GCache) (k : Int) (g : Guild) :
    dictGet (dictSet c k g) k = some g := by
  unfold dictGet dictSet
  by_cases h : c.any (fun p => p.1 == k) = true
  · rw [if_pos h, find?_set_of_any c k g h]
    rfl
  · rw [if_neg h, find?_append_of_none c k g h]
    rfl

lemma findGuild_id {store : List Guild} {gid : Int} {g : Guild}
    (h : findGuild store gid = some g) : g.id = gid := by
  have := List.find?_some h
  simpa using this

lemma findGuild_setGuild {store : List Guild} {gid : Int} {g : Guild} (g2 : Guild)
    (h : findGuild store gid = some g) (hid : g2.id = g.id) :
    findGuild (setGuild store g2) gid = some g2 := by
  have hgid : g.id = gid := findGuild_id h
  induction store with
  | nil => simp [findGuild] at h
  | cons x xs ih =>
      by_cases hx : (x.id == gid) = true
      · have hbeq : (x.id == g2.id) = true := by
          have hxid : x.id = gid := by simpa using hx
          simp [hxid, hid, hgid]
        unfold findGuild setGuild
        simp only [List.map_cons, if_pos hbeq]
        exact List.find?_cons_of_pos (p := fun (y : Guild) => y.id == gid) _ (by simp [hid, hgid])
      · unfold findGuild at h
        rw [List.find?_cons_of_neg (p := fun (y : Guild) => y.id == gid) _ hx] at h
        have hbeq : ¬ (x.id == g2.id) = true := by
          have hg2 : g2.id = gid := by rw [hid, hgid]
          intro hcon
          apply hx
          have hxid : x.id = g2.id := by simpa using hcon
          simp [hxid, hg2]
        unfold findGuild setGuild
        simp only [List.map_cons, if_neg hbeq]
        rw [List.find?_cons_of_neg (p := fun (y : Guild) => y.id == gid) _ hx]
        exact ih h

/-- Whether a role passes one of the optional flag filters of
`GuildCache._get_roles`. -/
def triMatch (f : Tri Bool) (b : Bool) : Bool :=
  match f with
  | Tri.missing => true
  | Tri.supplied v => b == v

/-- Embeds `GuildCache._get_roles` (src/timeclock/cache/guilds.py, lines
48-77): the cached guild's roles, filtered by `is_mod` when that argument
is not `MISSING`, then by `can_punch` when that one is not `MISSING`;
an uncached guild yields the empty list. -/
def get_roles_from_cache (cache : GCache) (guild_id : Int)
    (is_mod can_punch : Tri Bool) : List Role :=
  match dictGet cache guild_id with
  | none => []
  | some guild =>
      let roles := guild.roles
      let roles :=
        match is_mod with
        | Tri.missing => roles
        | Tri.supplied b => roles.filter (fun r => r.is_mod == b)
      match can_punch with
      | Tri.missing => roles
      | Tri.supplied b => roles.filter (fun r => r.can_punch == b)

/-- Embeds `GuildCache.get_roles` (src/timeclock/cache/guilds.py, lines
314-350).  Returns the roles, the cache after the call, and the number of
store queries the call performed: the cached filtered list when it is
non-empty (`if roles: return roles`), otherwise one fallback select of the
Guild aggregate, which is cached when found before re-deriving the filtered
list. -/
def get_roles (store : List Guild) (cache : GCache) (guild_id : Int)
    (is_mod can_punch : Tri Bool) : List Role × GCache × Nat :=
  let roles := get_roles_from_cache cache guild_id is_mod can_punch
  if roles.isEmpty then
    match findGuild store guild_id with
    | none => ([], cache, 1)
    | some guild =>
        let cache2 := dictSet cache guild_id guild
        (get_roles_from_cache cache2 guild_id is_mod can_punch, cache2, 1)
  else (roles, cache, 0)

/-- Embeds `GuildCache.remove_role` (src/timeclock/cache/guilds.py, lines
234-263) with an induced store outcome: `fail_commit` makes the commit that
runs when the transaction block exits raise, rolling the store back.  The
result carries the durable guild table and the in-memory index after the
call; `Except.error` means the call raised.  Three source paths: the guild
aggregate is absent (`return`, a no-op), the guild exists but holds no such
role (`raise ValueError`), or the role is deleted — in the last path the
source updates the cache on line 262, inside the transaction block, before
the commit runs. -/
def remove_role (fail_commit : Bool) (store : List Guild) (cache : GCache)
    (guild_id role_id : Int) : Except (List Guild × GCache) (List Guild × GCache) :=
  match findGuild store guild_id with
  | none =>
      if fail_commit then Except.error (store, cache) else Except.ok (store, cache)
  | some guild =>
      match guild.roles.find? (fun r => r.id == role_id) with
      | none => Except.error (store, cache)
      | some _ =>
          let guild2 := { guild with roles := guild.roles.eraseP (fun r => r.id == role_id) }
          let cache2 := dictSet cache guild_id guild2
          if fail_commit then Except.error (store, cache2)
          else Except.ok (setGuild store guild2, cache2)

/-- Embeds `GuildCache.update_guild` (src/timeclock/cache/guilds.py, lines
141-193) with an induced commit outcome.  When no Guild row exists the
source adds a new row but then calls `session.refresh(guild)` on the local
variable `guild`, which is still `None`; that raises and the transaction
block rolls the insert back.  When the row exists and `embed` is not
`MISSING`, the source assigns `guild.embed = json.dumps(embed)`: the
`embed` property setter of `database/guild.py` calls `.to_dict()` on the
string produced by `json.dumps`, which raises `AttributeError` and rolls
everything back.  Otherwise the supplied `message_id`/`channel_id` values
replace the stored ones, `MISSING` ones are left unchanged, and the cache
is updated after the transaction block commits. -/
def applyTri (cur : Option Int) (arg : Tri (Option Int)) : Option Int :=
  match arg with
  | Tri.missing => cur
  | Tri.supplied v => v

/-- The guild row after `update_guild` assigns the supplied
`message_id`/`channel_id` values (`MISSING` ones are left unchanged). -/
def updatedGuild (guild : Guild) (message_id channel_id : Tri (Option Int)) : Guild :=
  { guild with message_id := applyTri guild.message_id message_id,
               channel_id := applyTri guild.channel_id channel_id }

def update_guild (fail_commit : Bool) (store : List Guild) (cache : GCache)
    (guild_id : Int) (message_id channel_id : Tri (Option Int))
    (embed : Tri (Option String)) :
    Except (List Guild × GCache) (List Guild × GCache) :=
  match findGuild store guild_id with
  | none => Except.error (store, cache)
  | some guild =>
      match embed with
      | Tri.supplied _ => Except.error (store, cache)
      | Tri.missing =>
          let guild2 := updatedGuild guild message_id channel_id
          if fail_commit then Except.error (store, cache)
          else Except.ok (setGuild store guild2, dictSet cache guild_id guild2)

/-- The state of the world after a call that may have raised: both
constructors of the `Except` carry the durable table and the index. -/
def exceptState (r : Except (List Guild × GCache) (List Guild × GCache)) :
    List Guild × GCache :=
  match r with
  | Except.error s => s
  | Except.ok s => s

/-- A `disnake.Embed` argument as `TimeClockBot.ensure_guild` receives it:
`truthy` is its Python truth value (an embed with no fields set is falsy)
and `payload` its serialized form. -/
structure PyEmbed where
  truthy : Bool
  payload : String
deriving DecidableEq, Repr

/-- Python truthiness of an `int | None` value: `None` and `0` are falsy. -/
def truthyInt (v : Option Int) : Bool :=
  match v with
  | none => false
  | some n => !(n == 0)

/-- Embeds `TimeClockBot.ensure_guild` (src/timeclock/bot.py, lines 62-88):
an upsert whose optional arguments default to `None`.  A missing row is
created with the supplied fields (the `embed` constructor argument goes
through the property setter, serializing the embed or storing NULL).  An
existing row gets `field = arg if arg else field` for each of the three
fields; for a falsy `embed` the property round-trips the stored value
unchanged.  Returns the table after commit and the resulting guild. -/
def ensure_guild (store : List Guild) (guild_id : Int)
    (message_id channel_id : Option Int) (embed : Option PyEmbed) :
    List Guild × Guild :=
  match findGuild store guild_id with
  | none =>
      let g : Guild := { id := guild_id, message_id := message_id,
                         channel_id := channel_id,
                         embed := embed.map PyEmbed.payload, roles := [] }
      (store ++ [g], g)
  | some guild =>
      let emb := match embed with
        | some e => if e.truthy then some e.payload else guild.embed
        | none => guild.embed
      let g : Guild := { guild with
        message_id := if truthyInt message_id then message_id else guild.message_id,
        channel_id := if truthyInt channel_id then channel_id else guild.channel_id,
        embed := emb }
      (setGuild store g, g)

/-- Python equality between an `int` dict key and the object
`GuildCache.remove_guild` passes to `GuildCache._remove_guild`: the fetched
Guild ORM instance, or `None` when no row exists.  An int never compares
equal to a Guild instance (no custom `__eq__` relates them) nor to `None`,
so this is constantly false. -/
def pyIntEqFetched (_key : Int) (_fetched : Option Guild) : Bool := false

/-- Embeds `GuildCache._remove_guild` (src/timeclock/cache/guilds.py, lines
37-46) as called by `remove_guild`: `if guild_id in self._cache:
self._cache.pop(guild_id)`, where the passed `guild_id` is in fact the
fetched Guild object or `None`. -/
def remove_guild_cache_evict (cache : GCache) (fetched : Option Guild) : GCache :=
  if cache.any (fun p => pyIntEqFetched p.1 fetched) then
    cache.eraseP (fun p => pyIntEqFetched p.1 fetched)
  else cache

/-- Rows remaining after `session.delete(guild)` commits (primary keys are
unique, so deleting the fetched row removes every row with that id). -/
def delGuild (store : List Guild) (gid : Int) : List Guild :=
  store.filter (fun x => !(x.id == gid))

/-- Embeds `GuildCache.remove_guild` (src/timeclock/cache/guilds.py, lines
118-139): fetches the guild, deletes the row when found (committed when
the transaction block exits), then calls `self._remove_guild(guild)` with
the fetched object instead of the integer id.  The trailing log line
dereferences `guild.id` and raises when the row was absent, but that
happens after both state changes. -/
def remove_guild (store : List Guild) (cache : GCache) (guild_id : Int) :
    List Guild × GCache :=
  match findGuild store guild_id with
  | none => (store, remove_guild_cache_evict cache none)
  | some g => (delGuild store guild_id, remove_guild_cache_evict cache (some g))

/-- A guild holding a single role, used as concrete input. -/
def exRole : Role := { id := 2, guild_id := 1, is_mod := true, can_punch := true }

def exGuild : Guild :=
  { id := 1, message_id := none, channel_id := none, embed := none, roles := [exRole] }

def exGuildEmptied : Guild :=
  { id := 1, message_id := none, channel_id := none, embed := none, roles := [] }

/-- C3: evaluating `remove_role` on a store holding guild 1 with role 2 and
an empty in-memory index, with the commit made to fail: the store rolls
back, but the call has already inserted the post-delete aggregate into the
index (line 262 runs inside the transaction block), so the index differs
from its pre-call value — contradicting the write-before-cache policy the
claim states. -/
theorem remove_role_commit_failure_updates_index :
    remove_role true [exGuild] [] 1 2 =
      Except.error ([exGuild], [(1, exGuildEmptied)]) ∧
    ([(1, exGuildEmptied)] : GCache) ≠ ([] : GCache) := by
  exact ⟨rfl, by decide⟩

/-- C7: `remove_role` (with a committing store) deletes the role when the
guild aggregate holds it; it returns without error and without changes when
the guild aggregate is absent; and it raises (`ValueError`, a
NotFound-style failure) leaving store and cache unchanged when the guild
exists but holds no role with the given id. -/
theorem remove_role_semantics (store : List Guild) (cache : GCache) (gid rid : Int) :
    (findGuild store gid = none →
        remove_role false store cache gid rid = Except.ok (store, cache)) ∧
    (∀ g, findGuild store gid = some g →
        g.roles.find? (fun r => r.id == rid) = none →
        remove_role false store cache gid rid = Except.error (store, cache)) ∧
    (∀ g, findGuild store gid = some g →
        (g.roles.find? (fun r => r.id == rid)).isSome = true →
        remove_role false store cache gid rid =
          Except.ok
            (setGuild store { g with roles := g.roles.eraseP (fun r => r.id == rid) },
             dictSet cache gid { g with roles := g.roles.eraseP (fun r => r.id == rid) })) := by
  refine ⟨?_, ?_, ?_⟩
  · intro h
    simp [remove_role, h]
  · intro g hg hr
    simp [remove_role, hg, hr]
  · intro g hg hr
    obtain ⟨r, hr2⟩ := Option.isSome_iff_exists.mp hr
    simp [remove_role, hg, hr2]

/-- C7 witness: deleting role 2 from guild 1. -/
theorem remove_role_semantics_witness :
    remove_role false [exGuild] [] 1 2 =
      Except.ok
        (setGuild [exGuild] { exGuild with roles := exGuild.roles.eraseP (fun r => r.id == 2) },
         dictSet [] 1 { exGuild with roles := exGuild.roles.eraseP (fun r => r.id == 2) }) :=
  (remove_role_semantics [exGuild] [] 1 2).2.2 exGuild (by decide) (by decide)

lemma get_roles_from_cache_empty_roles (cache : GCache) (gid : Int) (g : Guild)
    (hc : dictGet cache gid = some g) (hr : g.roles = [])
    (im cp : Tri Bool) : get_roles_from_cache cache gid im cp = [] := by
  unfold get_roles_from_cache
  rw [hc]
  cases im <;> cases cp <;> simp [hr]

/-- C5: every `get_roles` call performs at most one fallback store query,
and on a guild that durably exists with zero roles (the index being absent
or consistent for that key) the call accepts the empty result as final. -/
theorem get_roles_single_fallback (store : List Guild) (cache : GCache) (gid : Int)
    (im cp : Tri Bool) :
    (get_roles store cache gid im cp).2.2 ≤ 1 ∧
    (∀ g, findGuild store gid = some g → g.roles = [] →
        (dictGet cache gid = none ∨ dictGet cache gid = some g) →
        (get_roles store cache gid im cp).1 = []) := by
  constructor
  · by_cases hE : (get_roles_from_cache cache gid im cp).isEmpty = true
    · cases hF : findGuild store gid with
      | none => simp [get_roles, hE, hF]
      | some g => simp [get_roles, hE, hF]
    · simp [get_roles, hE]
  · intro g hF hr hc
    have hcache_empty : get_roles_from_cache cache gid im cp = [] := by
      rcases hc with hc | hc
      · unfold get_roles_from_cache
        rw [hc]
      · exact get_roles_from_cache_empty_roles cache gid g hc hr im cp
    have h2 : get_roles_from_cache (dictSet cache gid g) gid im cp = [] :=
      get_roles_from_cache_empty_roles _ gid g (dictGet_dictSet cache gid g) hr im cp
    simp [get_roles, hcache_empty, hF, h2]

def exGuildNoRoles : Guild :=
  { id := 3, message_id := none, channel_id := none, embed := none, roles := [] }

/-- C5 witness: a guild that exists durably with zero roles and a cold
cache yields the empty result. -/
theorem get_roles_single_fallback_witness :
    (get_roles [exGuildNoRoles] [] 3 Tri.missing Tri.missing).1 = [] :=
  (get_roles_single_fallback [exGuildNoRoles] [] 3 Tri.missing Tri.missing).2
    exGuildNoRoles (by decide) rfl (Or.inl rfl)

lemma filter_and_filter {α : Type} (p q : α → Bool) (l : List α) :
    (l.filter p).filter q = l.filter (fun a => p a && q a) := by
  induction l with
  | nil => rfl
  | cons a l ih =>
      cases hp : p a <;> cases hq : q a <;> simp [List.filter_cons, hp, hq, ih]

def R1 : Role := { id := 10, guild_id := 1, is_mod := true, can_punch := true }

def R2 : Role := { id := 11, guild_id := 1, is_mod := false, can_punch := true }

def G1 : Guild :=
  { id := 1, message_id := none, channel_id := none, embed := none, roles := [R1, R2] }

/-- C8: on a guild with roles R1 (mod, punch) and R2 (non-mod, punch),
`get_roles` with `is_mod=true` returns exactly [R1] and with no filters
returns both; in general the cached lookup keeps exactly the roles whose
flags match every supplied filter, unsupplied filters not restricting. -/
theorem get_roles_filter_semantics :
    (get_roles [G1] [(1, G1)] 1 (Tri.supplied true) Tri.missing = ([R1], [(1, G1)], 0)) ∧
    (get_roles [G1] [(1, G1)] 1 Tri.missing Tri.missing = ([R1, R2], [(1, G1)], 0)) ∧
    (∀ (cache : GCache) (gid : Int) (g : Guild) (im cp : Tri Bool),
        dictGet cache gid = some g →
        get_roles_from_cache cache gid im cp =
          g.roles.filter (fun r => triMatch im r.is_mod && triMatch cp r.can_punch)) := by
  refine ⟨by decide, by decide, ?_⟩
  intro cache gid g im cp hc
  unfold get_roles_from_cache
  rw [hc]
  cases im <;> cases cp <;> simp [triMatch, filter_and_filter, Bool.and_comm]

/-- C8 witness: the general filter law applied with a supplied `false`
filter on the concrete guild. -/
theorem get_roles_filter_semantics_witness :
    get_roles_from_cache [(1, G1)] 1 (Tri.supplied false) Tri.missing =
      G1.roles.filter
        (fun r => triMatch (Tri.supplied false) r.is_mod && triMatch Tri.missing r.can_punch) :=
  get_roles_filter_semantics.2.2 [(1, G1)] 1 G1 (Tri.supplied false) Tri.missing (by decide)

/-- C6: on an existing Guild row, `update_guild` and `ensure_guild` leave
every field that was not supplied (`MISSING` for `update_guild`, `None` for
`ensure_guild`) at its previous persisted value — unchanged, not cleared:
for each unsupplied field the row found in the resulting durable table
still carries the old value, and `ensure_guild` persists and returns the
aggregate whose unsupplied fields are the old ones. -/
theorem partial_update_preserves_unsupplied_fields
    (store : List Guild) (cache : GCache) (gid : Int) (g : Guild)
    (hg : findGuild store gid = some g)
    (mi ci : Tri (Option Int)) (em : Tri (Option String))
    (mi2 ci2 : Option Int) (em2 : Option PyEmbed) :
    ((mi = Tri.missing →
        (findGuild (exceptState (update_guild false store cache gid mi ci em)).1 gid).map
          Guild.message_id = some g.message_id) ∧
     (ci = Tri.missing →
        (findGuild (exceptState (update_guild false store cache gid mi ci em)).1 gid).map
          Guild.channel_id = some g.channel_id) ∧
     (em = Tri.missing →
        (findGuild (exceptState (update_guild false store cache gid mi ci em)).1 gid).map
          Guild.embed = some g.embed)) ∧
    ((mi2 = none → (ensure_guild store gid mi2 ci2 em2).2.message_id = g.message_id) ∧
     (ci2 = none → (ensure_guild store gid mi2 ci2 em2).2.channel_id = g.channel_id) ∧
     (em2 = none → (ensure_guild store gid mi2 ci2 em2).2.embed = g.embed) ∧
     findGuild (ensure_guild store gid mi2 ci2 em2).1 gid =
       some (ensure_guild store gid mi2 ci2 em2).2) := by
  constructor
  · cases em with
    | supplied e =>
        have hres : update_guild false store cache gid mi ci (Tri.supplied e) =
            Except.error (store, cache) := by
          simp [update_guild, hg]
        refine ⟨?_, ?_, ?_⟩
        · intro _
          rw [hres]
          simp [exceptState, hg]
        · intro _
          rw [hres]
          simp [exceptState, hg]
        · intro hcon
          exact absurd hcon (by simp)
    | missing =>
        have hres : update_guild false store cache gid mi ci Tri.missing =
            Except.ok (setGuild store (updatedGuild g mi ci),
                       dictSet cache gid (updatedGuild g mi ci)) := by
          simp [update_guild, hg]
        have hfind : findGuild (setGuild store (updatedGuild g mi ci)) gid =
            some (updatedGuild g mi ci) :=
          findGuild_setGuild (updatedGuild g mi ci) hg rfl
        refine ⟨?_, ?_, ?_⟩
        · intro hmi
          subst hmi
          rw [hres]
          show (findGuild (setGuild store (updatedGuild g Tri.missing ci)) gid).map
            Guild.message_id = some g.message_id
          rw [hfind]
          simp [updatedGuild, applyTri]
        · intro hci
          subst hci
          rw [hres]
          show (findGuild (setGuild store (updatedGuild g mi Tri.missing)) gid).map
            Guild.channel_id = some g.channel_id
          rw [hfind]
          simp [updatedGuild, applyTri]
        · intro _
          rw [hres]
          show (findGuild (setGuild store (updatedGuild g mi ci)) gid).map
            Guild.embed = some g.embed
          rw [hfind]
          simp [updatedGuild]
  · simp only [ensure_guild, hg]
    refine ⟨?_, ?_, ?_, ?_⟩
    · intro hmi
      subst hmi
      simp [truthyInt]
    · intro hci
      subst hci
      simp [truthyInt]
    · intro hem
      subst hem
      rfl
    · exact findGuild_setGuild _ hg rfl

def exGuildCfg : Guild :=
  { id := 7, message_id := some 5, channel_id := some 6, embed := some "e", roles := [] }

/-- C6 witness: an `update_guild` call supplying nothing leaves the stored
`message_id` of guild 7 unchanged. -/
theorem partial_update_preserves_unsupplied_fields_witness :
    (findGuild (exceptState (update_guild false [exGuildCfg] [] 7 Tri.missing Tri.missing
        Tri.missing)).1 7).map Guild.message_id = some exGuildCfg.message_id :=
  (partial_update_preserves_unsupplied_fields [exGuildCfg] [] 7 exGuildCfg (by decide)
    Tri.missing Tri.missing Tri.missing none none none).1.1 rfl

/-- C10: for a guild id cached in the in-memory index, `remove_guild`
leaves the index entry in place — the eviction step receives the fetched
Guild object (or `None`) where the integer key is expected, so no key ever
matches — while the durable row, when present, is deleted (and afterwards
no row with that id remains durably). -/
theorem remove_guild_cache_entry_persists (store : List Guild) (cache : GCache)
    (gid : Int) (g : Guild) (hc : dictGet cache gid = some g) :
    (remove_guild store cache gid).2 = cache ∧
    dictGet (remove_guild store cache gid).2 gid = some g ∧
    findGuild (remove_guild store cache gid).1 gid = none := by
  have hevict : ∀ fetched, remove_guild_cache_evict cache fetched = cache := by
    intro fetched
    unfold remove_guild_cache_evict
    rw [if_neg]
    simp [pyIntEqFetched]
  have hdel : findGuild (delGuild store gid) gid = none := by
    unfold findGuild delGuild
    rw [List.find?_eq_none]
    intro x hx
    have := (List.mem_filter.mp hx).2
    simpa using this
  cases hF : findGuild store gid with
  | none =>
      refine ⟨?_, ?_, ?_⟩
      · simp [remove_guild, hF, hevict]
      · simp [remove_guild, hF, hevict, hc]
      · simp [remove_guild, hF]
  | some gg =>
      refine ⟨?_, ?_, ?_⟩
      · simp [remove_guild, hF, hevict]
      · simp [remove_guild, hF, hevict, hc]
      · simp [remove_guild, hF, hdel]

/-- C10 witness: guild 7 cached and durably present; after `remove_guild`
the row is gone but the index still answers for key 7. -/
theorem remove_guild_cache_entry_persists_witness :
    (remove_guild [exGuildCfg] [(7, exGuildCfg)] 7).2 = [(7, exGuildCfg)] ∧
    dictGet (remove_guild [exGuildCfg] [(7, exGuildCfg)] 7).2 7 = some exGuildCfg ∧
    findGuild (remove_guild [exGuildCfg] [(7, exGuildCfg)] 7).1 7 = none :=
  remove_guild_cache_entry_persists [exGuildCfg] [(7, exGuildCfg)] 7 exGuildCfg (by decide)

/-- The durable-store transaction API of the spec (begin, begin_nested,
commit, rollback): `committed` is the durably committed guild table,
`pending` the stack of open transaction working states, innermost first
(a savepoint snapshots the current working state; releasing it folds the
changes into the parent; rolling it back restores the parent's snapshot). -/
structure StoreSession where
  committed : List Guild
  pending : List (List Guild)
deriving DecidableEq, Repr

/-- `session.in_transaction()`. -/
def StoreSession.in_transaction (s : StoreSession) : Bool := !s.pending.isEmpty

/-- The state writes apply to: the innermost open transaction's view. -/
def StoreSession.work_state (s : StoreSession) : List Guild :=
  s.pending.headD s.committed

/-- `session.begin()` on a session with no open transaction. -/
def StoreSession.begin_top (s : StoreSession) : StoreSession :=
  { s with pending := [s.committed] }

/-- `session.begin_nested()`: opens a savepoint over the current view. -/
def StoreSession.begin_nested (s : StoreSession) : StoreSession :=
  { s with pending := s.work_state :: s.pending }

/-- The branch every repository method runs:
`session.begin_nested() if session.in_transaction() else session.begin()`. -/
def begin_or_nested (s : StoreSession) : StoreSession :=
  if s.in_transaction then s.begin_nested else s.begin_top

/-- Applies a write inside the innermost open transaction. -/
def StoreSession.apply_write (s : StoreSession) (f : List Guild → List Guild) : StoreSession :=
  { s with pending := match s.pending with | [] => [] | w :: rest => f w :: rest }

/-- Commit of the innermost scope: a top-level commit makes the working
state durable; releasing a savepoint folds its state into the parent. -/
def StoreSession.commit_current (s : StoreSession) : StoreSession :=
  match s.pending with
  | [] => s
  | [w] => { committed := w, pending := [] }
  | w :: _ :: rest => { s with pending := w :: rest }

/-- Rollback of the innermost scope: its working state is discarded (the
parent's snapshot, or the committed state, becomes current again). -/
def StoreSession.rollback_current (s : StoreSession) : StoreSession :=
  { s with pending := s.pending.tail }

/-- `TimeClockBot.ensure_guild(guild_id, session=session)` invoked with only
the guild id, on the caller's session (src/timeclock/bot.py, lines 62-88):
joins via `begin_or_nested`, performs the upsert with all optional fields
`None` (which leaves an existing row unchanged), and commits its scope. -/
def ensure_guild_in_session (guild_id : Int) (s : StoreSession) : StoreSession :=
  ((begin_or_nested s).apply_write
    (fun st => (ensure_guild st guild_id none none none).1)).commit_current

/-- `select(Role).where(Role.id == role_id)` over the aggregate table. -/
def findRoleGlobal (st : List Guild) (rid : Int) : Option Role :=
  st.findSome? (fun g => g.roles.find? (fun r => r.id == rid))

def addRoleRow (g : Guild) (rid gid : Int) (cp im : Bool) : Guild :=
  { g with roles := g.roles ++ [{ id := rid, guild_id := gid, is_mod := im, can_punch := cp }] }

/-- The role upsert of `TimeClockBot.add_role`: inserts a new Role row under
its guild when the id is unknown, otherwise updates that row's flags. -/
def add_or_update_role (st : List Guild) (gid rid : Int) (cp im : Bool) : List Guild :=
  match findRoleGlobal st rid with
  | none => st.map (fun g => if g.id == gid then addRoleRow g rid gid cp im else g)
  | some _ =>
      let upd := fun (r : Role) =>
        if r.id == rid then { r with is_mod := im, can_punch := cp } else r
      st.map (fun g => { g with roles := g.roles.map upd })

/-- Embeds `TimeClockBot.add_role` (src/timeclock/bot.py, lines 106-132) on
a fresh session: opens a top-level transaction, calls `ensure_guild` on the
same session (which joins via a savepoint), upserts the role in the outer
transaction, then commits — or, when `fail_before_commit` is set, an
exception raised before the final commit rolls the outer transaction back.
The source's optional role flags are instantiated with supplied booleans. -/
def bot_add_role (fail_before_commit : Bool) (rid gid : Int) (cp im : Bool)
    (s : StoreSession) : StoreSession :=
  let s1 := s.begin_top
  let s2 := ensure_guild_in_session gid s1
  let s3 := s2.apply_write (fun st => add_or_update_role st gid rid cp im)
  if fail_before_commit then s3.rollback_current else s3.commit_current

/-- C4: a repository operation invoked while the session is already in a
transaction joins it via a savepoint (`begin_or_nested` picks
`begin_nested`); a failure confined to the nested step rolls back only that
step, restoring the outer transaction exactly; and in the concrete
`bot_add_role` flow — outer transaction, nested `ensure_guild` adding guild
1, role 2 added in the outer scope — the session is indeed inside a
transaction when the nested call runs, an abort before the outer commit
leaves the committed store without the guild and without the role, and the
non-failing run commits both. -/
theorem nested_transaction_savepoint :
    (∀ s : StoreSession, s.in_transaction = true → begin_or_nested s = s.begin_nested) ∧
    (∀ (s : StoreSession) (f : List Guild → List Guild),
        (s.begin_nested.apply_write f).rollback_current = s) ∧
    ((StoreSession.mk [] []).begin_top.in_transaction = true) ∧
    (bot_add_role true 2 1 true true (StoreSession.mk [] []) = StoreSession.mk [] []) ∧
    ((bot_add_role false 2 1 true true (StoreSession.mk [] [])).committed =
      [{ id := 1, message_id := none, channel_id := none, embed := none,
         roles := [{ id := 2, guild_id := 1, is_mod := true, can_punch := true }] }]) := by
  refine ⟨?_, ?_, rfl, by decide, by decide⟩
  · intro s h
    simp [begin_or_nested, h]
  · intro s f
    rfl

/-- C4 witness: the savepoint branch taken on a session with one open
transaction. -/
theorem nested_transaction_savepoint_witness :
    begin_or_nested (StoreSession.mk [] [[]]) = (StoreSession.mk [] [[]]).begin_nested :=
  nested_transaction_savepoint.1 (StoreSession.mk [] [[]]) rfl

end TimeClock
